import Mathlib

/-!
Shallow embedding of the phit entropy core of `libphit.h` / `phit_crypto.c`
(sample extractor, 32/64-bit mixing hashes, entropy pool, PRNG facade and
router), with theorems settling the specification claims about it.

Machine integers are modelled as `Nat` with explicit reduction modulo
`2 ^ 32` / `2 ^ 64` wherever the C code's unsigned wraparound arithmetic can
overflow.  The platform timer (`phit_now_ns`) is the only non-deterministic
input; it is modelled as an explicit stream `f : Nat → Nat` of 64-bit reads,
consumed at increasing indices.  The `volatile` workload loops are
deterministic in their computed value (volatility only defeats dead-code
elimination), so they are embedded as ordinary recursion.
-/

/-- Left rotation of a 64-bit value: `(x << k) | (x >> (64 - k))` in
`uint64_t` arithmetic (`phit__rotl64` in the source). -/
def phit_rotl64 (x k : Nat) : Nat :=
  ((x <<< k) % 2 ^ 64) ||| (x >>> (64 - k))

/-- The 32-bit avalanche hash `phit_hash32`: multiply by 2654435761, xor-shift
right 16, multiply by 0x85EBCA6B, xor-shift right 13, all in `uint32_t`
arithmetic.  The leading reduction models the `uint32_t key` parameter. -/
def phit_hash32 (key : Nat) : Nat :=
  let key := key % 2 ^ 32
  let key := key * 2654435761 % 2 ^ 32
  let key := key ^^^ (key >>> 16)
  let key := key * 0x85ebca6b % 2 ^ 32
  let key := key ^^^ (key >>> 13)
  key

/-- The 64-bit SplitMix-style hash `phit_hash64`: xor-shift 30 then multiply
by 0xBF58476D1CE4E5B9, xor-shift 27 then multiply by 0x94D049BB133111EB,
final xor-shift 31, all in `uint64_t` arithmetic.  The leading reduction
models the `uint64_t key` parameter. -/
def phit_hash64 (key : Nat) : Nat :=
  let key := key % 2 ^ 64
  let key := (key ^^^ (key >>> 30)) * 0xBF58476D1CE4E5B9 % 2 ^ 64
  let key := (key ^^^ (key >>> 27)) * 0x94D049BB133111EB % 2 ^ 64
  let key := key ^^^ (key >>> 31)
  key

/-- One step of the sample-extractor workload loop:
`x = x * 6364136223846793005 + 1442695040888963407` in `uint64_t`. -/
def phit_sample_workload_step (x : Nat) : Nat :=
  (x * 6364136223846793005 + 1442695040888963407) % 2 ^ 64

/-- `n` iterations of a step function (the C `for` loops over `x`). -/
def phit_iter (step : Nat → Nat) : Nat → Nat → Nat
  | 0, x => x
  | n + 1, x => phit_iter step n (step x)

/-- The sample extractor's workload value: 10 multiply-add iterations over a
seed (the loop at the top of `phit_sample` / `phit_sample_compound`). -/
def phit_sample_workload (seed : Nat) : Nat :=
  phit_iter phit_sample_workload_step 10 (seed % 2 ^ 64)

/-- One step of the harvest workload loop: multiply-add then `x ^= x >> 17`
in `uint64_t` (loop body of `phit_pool_harvest` / `phit_workload`). -/
def phit_harvest_workload_step (x : Nat) : Nat :=
  let x := (x * 6364136223846793005 + 1442695040888963407) % 2 ^ 64
  x ^^^ (x >>> 17)

/-- The harvest workload value: `PHIT_WORKLOAD_ITERS = 20` iterations from
seed 0xCAFEBABE.  Deterministic (volatility affects only timing). -/
def phit_harvest_workload : Nat :=
  phit_iter phit_harvest_workload_step 20 0xCAFEBABE

/-- Step 3 of the basic sample: build the 32-bit key
`(t & 0x3) | (((uint32_t)(t >> 2) ^ (uint32_t)x) << 2)` from timer value `t`
and workload value `x`. -/
def phit_sample_key (t x : Nat) : Nat :=
  (t % 4) ||| (((((t >>> 2) % 2 ^ 32) ^^^ (x % 2 ^ 32)) <<< 2) % 2 ^ 32)

/-- `phit_sample`: fixed workload from seed 0xDEADBEEF, one timer read `t`,
key build, then the 32-bit avalanche hash. -/
def phit_sample (t : Nat) : Nat :=
  let x := phit_sample_workload 0xDEADBEEF
  phit_hash32 (phit_sample_key (t % 2 ^ 64) x)

/-- Loop body of `phit_sample_compound`: fold index `i`, remaining reads as
fuel, accumulator `key`; timer reads come from the stream `f`. -/
def phit_compound_loop (f : Nat → Nat) : Nat → Nat → Nat → Nat
  | _, 0, key => key
  | i, n + 1, key =>
    let x := phit_sample_workload (0xDEADBEEF ^^^ (i * 0x9E3779B97F4A7C15 % 2 ^ 64))
    let t := f i % 2 ^ 64
    let sample := phit_sample_key t x
    let key := key ^^^ phit_hash32 ((sample + i) % 2 ^ 32)
    let key := ((key <<< 7) % 2 ^ 32) ||| (key >>> 25)
    phit_compound_loop f (i + 1) n key

/-- `phit_sample_compound(num_reads)`: fold `num_reads` varied basic reads
into an accumulator, then apply the avalanche hash to the accumulator. -/
def phit_sample_compound (num_reads : Nat) (f : Nat → Nat) : Nat :=
  phit_hash32 (phit_compound_loop f 0 num_reads 0)

/-- `phit_route(num_destinations)`: compound sample with N = 2, reduced
modulo `num_destinations`.  The C source performs the modulo unconditionally;
at `num_destinations = 0` the C expression is modulo-by-zero (undefined
behaviour), so this equation models only the defined executions. -/
def phit_route (num_destinations : Nat) (f : Nat → Nat) : Nat :=
  phit_sample_compound 2 f % num_destinations

/-- The entropy pool `phit_pool_t`: four `uint64_t` lanes
(`PHIT_POOL_LANES = 4`, embedded as four fields of the C array `pool[4]`),
the mix counter and the diagnostic bits-collected counter. -/
structure phit_pool_t where
  pool0 : Nat
  pool1 : Nat
  pool2 : Nat
  pool3 : Nat
  mix_counter : Nat
  bits_collected : Nat
deriving DecidableEq, Repr

/-- Read lane `i` of the pool array (`p->pool[i]`). -/
def phit_pool_t.lane (p : phit_pool_t) (i : Nat) : Nat :=
  if i = 0 then p.pool0 else if i = 1 then p.pool1 else if i = 2 then p.pool2 else p.pool3

/-- Write lane `i` of the pool array (`p->pool[i] = v`). -/
def phit_pool_t.setLane (p : phit_pool_t) (i : Nat) (v : Nat) : phit_pool_t :=
  if i = 0 then { p with pool0 := v }
  else if i = 1 then { p with pool1 := v }
  else if i = 2 then { p with pool2 := v }
  else { p with pool3 := v }

/-- `phit_pool_init`: all-zero pool. -/
def phit_pool_init : phit_pool_t :=
  { pool0 := 0, pool1 := 0, pool2 := 0, pool3 := 0, mix_counter := 0, bits_collected := 0 }

/-- `phit_pool_feed(p, sample)`: increment the mix counter, mix the sample
with counter times the golden-ratio constant through `phit_hash64`, xor the
result into lane `mix_counter & 3`, cross-mix a 17-bit rotation of that
lane's new value into the next lane, and add 2 to `bits_collected`. -/
def phit_pool_feed (p : phit_pool_t) (sample : Nat) : phit_pool_t :=
  let mc := (p.mix_counter + 1) % 2 ^ 64
  let z := phit_hash64 ((sample % 2 ^ 64 + mc * 0x9E3779B97F4A7C15) % 2 ^ 64)
  let slot := mc % 4
  let lane := p.lane slot ^^^ z
  let p1 := p.setLane slot lane
  let next := (slot + 1) % 4
  let p2 := p1.setLane next (p1.lane next ^^^ phit_rotl64 lane 17)
  { p2 with mix_counter := mc, bits_collected := p.bits_collected + 2 }

/-- `phit_pool_harvest(p)` with timer read `t`: run the 20-iteration harvest
workload (value `phit_harvest_workload`), read the timer once, then feed the
raw timer value and feed timer xor workload-value. -/
def phit_pool_harvest (p : phit_pool_t) (t : Nat) : phit_pool_t :=
  let x := phit_harvest_workload
  let t := t % 2 ^ 64
  let p := phit_pool_feed p t
  phit_pool_feed p (x ^^^ t)

/-- `n` successive harvests, consuming timer reads `f base`, `f (base+1)`,
…  (the `for` loop at the top of `phit_pool_extract`). -/
def phit_harvestN (f : Nat → Nat) : Nat → Nat → phit_pool_t → phit_pool_t
  | _, 0, p => p
  | base, n + 1, p => phit_harvestN f (base + 1) n (phit_pool_harvest p (f base))

/-- `phit_pool_extract(p)`: harvest `PHIT_POOL_LANES = 4` times, combine the
four lanes into the output with rotations 13/29/43, then xor rotations 7/23
of the output back into lanes 0 and 1, and return the output together with
the final pool state. -/
def phit_pool_extract (p : phit_pool_t) (f : Nat → Nat) (base : Nat) : Nat × phit_pool_t :=
  let p := phit_harvestN f base 4 p
  let out := p.pool0 ^^^ phit_rotl64 p.pool1 13 ^^^ phit_rotl64 p.pool2 29 ^^^ phit_rotl64 p.pool3 43
  let p := { p with pool0 := p.pool0 ^^^ phit_rotl64 out 7 }
  let p := { p with pool1 := p.pool1 ^^^ phit_rotl64 out 23 }
  (out, p)

/-- The PRNG `phit_prng_t`: one pool plus the diagnostic generated
counter. -/
structure phit_prng_t where
  pool : phit_pool_t
  generated : Nat
deriving DecidableEq, Repr

/-- `phit_prng_u64(rng)`: increment the generated counter and extract from
the pool (consuming four timer reads from the stream at `base`). -/
def phit_prng_u64 (rng : phit_prng_t) (f : Nat → Nat) (base : Nat) : Nat × phit_prng_t :=
  let g := (rng.generated + 1) % 2 ^ 64
  let r := phit_pool_extract rng.pool f base
  (r.1, { pool := r.2, generated := g })

/-- `phit_prng_range(rng, max)`: the source returns 0 immediately when
`max == 0` (without generating), else `phit_prng_u64 % max`. -/
def phit_prng_range (rng : phit_prng_t) (mx : Nat) (f : Nat → Nat) (base : Nat) :
    Nat × phit_prng_t :=
  if mx % 2 ^ 32 = 0 then (0, rng)
  else
    let r := phit_prng_u64 rng f base
    (r.1 % (mx % 2 ^ 32), r.2)

/-- Write the `k` low-order bytes of `v` (little-endian, as `memcpy` of a
`uint64_t` on the target platforms) into the buffer at offset `off`. -/
def phit_writeBytes : List Nat → Nat → Nat → Nat → List Nat
  | buf, _, _, 0 => buf
  | buf, off, v, k + 1 => phit_writeBytes (buf.set off (v % 256)) (off + 1) (v / 256) k

/-- `phit_prng_fill(rng, buf, len)`: while at least 8 bytes remain, generate
a `uint64_t` and copy its 8 bytes; then, if 1–7 bytes remain, generate one
more value and copy its low `len` bytes.  `off` is the write cursor (the C
pointer `p`); each generated value consumes 4 timer reads. -/
def phit_prng_fill (rng : phit_prng_t) (f : Nat → Nat) (base : Nat) (buf : List Nat)
    (off : Nat) (len : Nat) : List Nat × phit_prng_t :=
  if h : 8 ≤ len then
    let r := phit_prng_u64 rng f base
    phit_prng_fill r.2 f (base + 4) (phit_writeBytes buf off r.1 8) (off + 8) (len - 8)
  else if 0 < len then
    let r := phit_prng_u64 rng f base
    (phit_writeBytes buf off r.1 len, r.2)
  else (buf, rng)
termination_by len
decreasing_by omega

/-! ## Basic arithmetic lemmas about the primitives -/

/-- A constantly-zero timer stream, used to instantiate theorems at concrete
inputs. -/
def phit_tzero : Nat → Nat := fun _ => 0

lemma phit_or_eq_zero_right {a b : Nat} (h : a ||| b = 0) : b = 0 := by
  apply Nat.eq_of_testBit_eq
  intro i
  have hi := congrArg (fun z => Nat.testBit z i) h
  simp only [Nat.testBit_or, Nat.zero_testBit, Bool.or_eq_false_iff] at hi
  simpa using hi.2

lemma phit_shiftRight_le (x n : Nat) : x >>> n ≤ x := by
  rw [Nat.shiftRight_eq_div_pow]
  exact Nat.div_le_self _ _

lemma phit_hash32_lt (key : Nat) : phit_hash32 key < 2 ^ 32 := by
  simp only [phit_hash32]
  apply Nat.xor_lt_two_pow
  · exact Nat.mod_lt _ (by norm_num)
  · exact Nat.lt_of_le_of_lt (phit_shiftRight_le _ _) (Nat.mod_lt _ (by norm_num))

lemma phit_hash64_lt (key : Nat) : phit_hash64 key < 2 ^ 64 := by
  simp only [phit_hash64]
  apply Nat.xor_lt_two_pow
  · exact Nat.mod_lt _ (by norm_num)
  · exact Nat.lt_of_le_of_lt (phit_shiftRight_le _ _) (Nat.mod_lt _ (by norm_num))

lemma phit_rotl64_lt_of_lt {x : Nat} (k : Nat) (hx : x < 2 ^ 64) :
    phit_rotl64 x k < 2 ^ 64 := by
  apply Nat.or_lt_two_pow (Nat.mod_lt _ (by norm_num))
  exact Nat.lt_of_le_of_lt (phit_shiftRight_le _ _) hx

/-- A nonzero 64-bit value stays nonzero under rotation: rotation permutes
the 64 bits, so it can only vanish on zero. -/
lemma phit_rotl64_ne_zero {x : Nat} (k : Nat) (hk : k ≤ 64)
    (h0 : x ≠ 0) : phit_rotl64 x k ≠ 0 := by
  unfold phit_rotl64
  intro h
  rcases Nat.lt_or_ge x (2 ^ (64 - k)) with hlt | hge
  · have hs : x >>> (64 - k) = 0 := by
      rw [Nat.shiftRight_eq_div_pow]
      exact Nat.div_eq_of_lt hlt
    have hl : (x <<< k) % 2 ^ 64 = x * 2 ^ k := by
      rw [Nat.shiftLeft_eq]
      apply Nat.mod_eq_of_lt
      calc x * 2 ^ k < 2 ^ (64 - k) * 2 ^ k :=
            Nat.mul_lt_mul_of_pos_right hlt (Nat.two_pow_pos k)
        _ = 2 ^ 64 := by rw [← Nat.pow_add]; congr 1; omega
    rw [hs, hl, Nat.or_zero] at h
    rcases Nat.mul_eq_zero.mp h with h | h
    · exact h0 h
    · exact absurd h (Nat.pos_iff_ne_zero.mp (Nat.two_pow_pos k))
  · have hpos : 0 < x >>> (64 - k) := by
      rw [Nat.shiftRight_eq_div_pow]
      exact Nat.div_pos hge (Nat.two_pow_pos _)
    have hz := phit_or_eq_zero_right h
    omega

/-- Xoring a nonzero value changes the result. -/
lemma phit_xor_ne_of_ne_zero {x y : Nat} (hy : y ≠ 0) : x ^^^ y ≠ x := by
  intro h
  apply hy
  have h2 : x ^^^ y = x ^^^ 0 := by simpa using h
  exact Nat.xor_right_inj.mp h2

/-! ## Well-formedness: lanes hold 64-bit values -/

/-- All four pool lanes fit in 64 bits (the `uint64_t pool[4]` field type). -/
@[reducible] def phit_pool_t.wf (p : phit_pool_t) : Prop :=
  p.pool0 < 2 ^ 64 ∧ p.pool1 < 2 ^ 64 ∧ p.pool2 < 2 ^ 64 ∧ p.pool3 < 2 ^ 64

lemma phit_lane_lt {p : phit_pool_t} (h : p.wf) (i : Nat) : p.lane i < 2 ^ 64 := by
  unfold phit_pool_t.lane
  split_ifs <;> omega

lemma phit_setLane_wf {p : phit_pool_t} {v : Nat} (h : p.wf) (i : Nat)
    (hv : v < 2 ^ 64) : (p.setLane i v).wf := by
  obtain ⟨h0, h1, h2, h3⟩ := h
  unfold phit_pool_t.setLane
  split_ifs <;> exact ⟨by simpa, by simpa, by simpa, by simpa⟩

lemma phit_pool_feed_wf {p : phit_pool_t} (h : p.wf) (s : Nat) :
    (phit_pool_feed p s).wf := by
  unfold phit_pool_feed
  refine phit_setLane_wf (phit_setLane_wf h _ ?_) _ ?_
  · exact Nat.xor_lt_two_pow (phit_lane_lt h _) (phit_hash64_lt _)
  · exact Nat.xor_lt_two_pow
      (phit_lane_lt (phit_setLane_wf h _
        (Nat.xor_lt_two_pow (phit_lane_lt h _) (phit_hash64_lt _))) _)
      (phit_rotl64_lt_of_lt _
        (Nat.xor_lt_two_pow (phit_lane_lt h _) (phit_hash64_lt _)))

lemma phit_pool_harvest_wf {p : phit_pool_t} (h : p.wf) (t : Nat) :
    (phit_pool_harvest p t).wf :=
  phit_pool_feed_wf (phit_pool_feed_wf h _) _

lemma phit_harvestN_wf {p : phit_pool_t} (h : p.wf) (f : Nat → Nat) :
    ∀ n base, (phit_harvestN f base n p).wf := by
  intro n
  induction n generalizing p with
  | zero => intro base; exact h
  | succ n ih =>
    intro base
    exact ih (p := phit_pool_harvest p (f base)) (phit_pool_harvest_wf h _) _

/-! ## Structure of extraction -/

lemma phit_pool_extract_def (p : phit_pool_t) (f : Nat → Nat) (base : Nat) :
    phit_pool_extract p f base =
      (let q := phit_harvestN f base 4 p
       let out := q.pool0 ^^^ phit_rotl64 q.pool1 13 ^^^ phit_rotl64 q.pool2 29
         ^^^ phit_rotl64 q.pool3 43
       (out, { q with pool0 := q.pool0 ^^^ phit_rotl64 out 7,
                      pool1 := q.pool1 ^^^ phit_rotl64 out 23 })) := by
  unfold phit_pool_extract
  generalize phit_harvestN f base 4 p = q
  rfl

lemma phit_pool_extract_snd_pool0 (p : phit_pool_t) (f : Nat → Nat) (base : Nat) :
    (phit_pool_extract p f base).2.pool0 =
      (phit_harvestN f base 4 p).pool0 ^^^ phit_rotl64 (phit_pool_extract p f base).1 7 := by
  rw [phit_pool_extract_def]

lemma phit_pool_extract_snd_pool1 (p : phit_pool_t) (f : Nat → Nat) (base : Nat) :
    (phit_pool_extract p f base).2.pool1 =
      (phit_harvestN f base 4 p).pool1 ^^^ phit_rotl64 (phit_pool_extract p f base).1 23 := by
  rw [phit_pool_extract_def]

lemma phit_pool_extract_snd_mix (p : phit_pool_t) (f : Nat → Nat) (base : Nat) :
    (phit_pool_extract p f base).2.mix_counter = (phit_harvestN f base 4 p).mix_counter := by
  rw [phit_pool_extract_def]

/-! ## Mix-counter arithmetic -/

lemma phit_pool_feed_mix (p : phit_pool_t) (s : Nat) :
    (phit_pool_feed p s).mix_counter = (p.mix_counter + 1) % 2 ^ 64 := rfl

lemma phit_pool_feed_bits (p : phit_pool_t) (s : Nat) :
    (phit_pool_feed p s).bits_collected = p.bits_collected + 2 := rfl

lemma phit_pool_harvest_mix (p : phit_pool_t) (t : Nat) :
    (phit_pool_harvest p t).mix_counter = (p.mix_counter + 2) % 2 ^ 64 := by
  calc (phit_pool_harvest p t).mix_counter
      = (phit_pool_feed (phit_pool_feed p (t % 2 ^ 64))
          (phit_harvest_workload ^^^ (t % 2 ^ 64))).mix_counter := rfl
    _ = ((p.mix_counter + 1) % 2 ^ 64 + 1) % 2 ^ 64 := by
        rw [phit_pool_feed_mix, phit_pool_feed_mix]
    _ = (p.mix_counter + 2) % 2 ^ 64 := by rw [Nat.mod_add_mod]

lemma phit_harvestN_mix (f : Nat → Nat) : ∀ (n base : Nat) (p : phit_pool_t),
    (phit_harvestN f base (n + 1) p).mix_counter = (p.mix_counter + 2 * (n + 1)) % 2 ^ 64 := by
  intro n
  induction n with
  | zero =>
    intro base p
    calc (phit_harvestN f base (0 + 1) p).mix_counter
        = (phit_pool_harvest p (f base)).mix_counter := rfl
      _ = (p.mix_counter + 2) % 2 ^ 64 := phit_pool_harvest_mix p (f base)
      _ = (p.mix_counter + 2 * (0 + 1)) % 2 ^ 64 := by norm_num
  | succ n ih =>
    intro base p
    calc (phit_harvestN f base (n + 1 + 1) p).mix_counter
        = (phit_harvestN f (base + 1) (n + 1) (phit_pool_harvest p (f base))).mix_counter := rfl
      _ = ((phit_pool_harvest p (f base)).mix_counter + 2 * (n + 1)) % 2 ^ 64 :=
          ih (base + 1) (phit_pool_harvest p (f base))
      _ = (p.mix_counter + 2 * (n + 1 + 1)) % 2 ^ 64 := by
          rw [phit_pool_harvest_mix]
          omega

lemma phit_pool_extract_mix (p : phit_pool_t) (f : Nat → Nat) (base : Nat) :
    (phit_pool_extract p f base).2.mix_counter = (p.mix_counter + 8) % 2 ^ 64 := by
  rw [phit_pool_extract_snd_mix]
  have h := phit_harvestN_mix f 3 base p
  norm_num at h
  exact h

/-! ## Claim theorems -/

/-- C1: for every pool state and timer stream, `phit_pool_extract` performs
exactly four harvests (each harvest runs the fixed workload, reads the timer
once, and feeds twice: the raw timer value, then timer xor workload value),
computes its output as
`lane0 ^^^ rotl64(lane1,13) ^^^ rotl64(lane2,29) ^^^ rotl64(lane3,43)` over
the post-harvest lanes, then xors `rotl64(out,7)` into lane 0 and
`rotl64(out,23)` into lane 1 after the output is computed, and returns the
output.  It is a total function — it always succeeds, with no error
condition. -/
theorem claim_C1_extract_structure (p : phit_pool_t) (f : Nat → Nat) (base : Nat) :
    phit_harvestN f base 4 p =
      phit_pool_harvest (phit_pool_harvest (phit_pool_harvest (phit_pool_harvest p
        (f base)) (f (base + 1))) (f (base + 2))) (f (base + 3))
    ∧ (∀ (q : phit_pool_t) (t : Nat),
        phit_pool_harvest q t =
          phit_pool_feed (phit_pool_feed q (t % 2 ^ 64))
            (phit_harvest_workload ^^^ (t % 2 ^ 64)))
    ∧ phit_pool_extract p f base =
        (let q := phit_harvestN f base 4 p
         let out := q.pool0 ^^^ phit_rotl64 q.pool1 13 ^^^ phit_rotl64 q.pool2 29
           ^^^ phit_rotl64 q.pool3 43
         (out, { q with pool0 := q.pool0 ^^^ phit_rotl64 out 7,
                        pool1 := q.pool1 ^^^ phit_rotl64 out 23 })) :=
  ⟨rfl, fun _ _ => rfl, phit_pool_extract_def p f base⟩

/-- C2: forward secrecy of extraction — whenever the extracted output is
non-zero, the post-extraction values of lane 0 and lane 1 differ from their
pre-mutation (post-harvest) values, so every extraction mutates at least two
lanes using the just-produced output. -/
theorem claim_C2_forward_secrecy (p : phit_pool_t) (f : Nat → Nat) (base : Nat)
    (hout : (phit_pool_extract p f base).1 ≠ 0) :
    (phit_pool_extract p f base).2.pool0 ≠ (phit_harvestN f base 4 p).pool0
    ∧ (phit_pool_extract p f base).2.pool1 ≠ (phit_harvestN f base 4 p).pool1 := by
  rw [phit_pool_extract_snd_pool0, phit_pool_extract_snd_pool1]
  exact ⟨phit_xor_ne_of_ne_zero (phit_rotl64_ne_zero 7 (by norm_num) hout),
         phit_xor_ne_of_ne_zero (phit_rotl64_ne_zero 23 (by norm_num) hout)⟩

/-- Witness for C2 at a concrete input: from the all-zero pool with a
constantly-zero timer stream the extracted output is non-zero, and both
lane 0 and lane 1 are altered by the forward-secrecy mutation. -/
theorem claim_C2_forward_secrecy_witness :
    (phit_pool_extract phit_pool_init phit_tzero 0).2.pool0
        ≠ (phit_harvestN phit_tzero 0 4 phit_pool_init).pool0
    ∧ (phit_pool_extract phit_pool_init phit_tzero 0).2.pool1
        ≠ (phit_harvestN phit_tzero 0 4 phit_pool_init).pool1 :=
  claim_C2_forward_secrecy phit_pool_init phit_tzero 0 (by decide)

/-- C9: monotonic mix counter — every feed adds exactly 1 to the mix counter
(modulo 2^64, so it wraps only at 64-bit overflow), hence every harvest adds
2 and every extract adds 8; consequently, absent overflow, an extract call
leaves the pool with a strictly larger mix counter, so successive extracts
on one pool observe strictly increasing values. -/
theorem claim_C9_mix_counter (p : phit_pool_t) (s t : Nat) (f : Nat → Nat) (base : Nat) :
    (phit_pool_feed p s).mix_counter = (p.mix_counter + 1) % 2 ^ 64
    ∧ (phit_pool_harvest p t).mix_counter = (p.mix_counter + 2) % 2 ^ 64
    ∧ (phit_pool_extract p f base).2.mix_counter = (p.mix_counter + 8) % 2 ^ 64
    ∧ (p.mix_counter + 8 < 2 ^ 64 →
        p.mix_counter < (phit_pool_extract p f base).2.mix_counter) := by
  refine ⟨phit_pool_feed_mix p s, phit_pool_harvest_mix p t, phit_pool_extract_mix p f base, ?_⟩
  intro h
  rw [phit_pool_extract_mix, Nat.mod_eq_of_lt h]
  omega

/-- Witness for C9 at a concrete input: extracting from the freshly
initialised pool advances the mix counter from 0 to 8, a strict increase. -/
theorem claim_C9_mix_counter_witness :
    (phit_pool_extract phit_pool_init phit_tzero 0).2.mix_counter
        = (phit_pool_init.mix_counter + 8) % 2 ^ 64
    ∧ phit_pool_init.mix_counter
        < (phit_pool_extract phit_pool_init phit_tzero 0).2.mix_counter :=
  ⟨(claim_C9_mix_counter phit_pool_init 0 0 phit_tzero 0).2.2.1,
   (claim_C9_mix_counter phit_pool_init 0 0 phit_tzero 0).2.2.2 (by decide)⟩

/-! ## Lane-level description of feed -/

lemma phit_lane_mk_update (q : phit_pool_t) (m b j : Nat) :
    ({ q with mix_counter := m, bits_collected := b } : phit_pool_t).lane j = q.lane j := by
  unfold phit_pool_t.lane
  rfl

lemma phit_setLane_lane (p : phit_pool_t) (i j v : Nat) (hi : i < 4) (hj : j < 4) :
    (p.setLane i v).lane j = if j = i then v else p.lane j := by
  unfold phit_pool_t.setLane phit_pool_t.lane
  interval_cases i <;> interval_cases j <;> simp

lemma phit_pool_feed_eq (p : phit_pool_t) (s : Nat) :
    phit_pool_feed p s =
      { (p.setLane ((p.mix_counter + 1) % 2 ^ 64 % 4)
            (p.lane ((p.mix_counter + 1) % 2 ^ 64 % 4)
              ^^^ phit_hash64 ((s % 2 ^ 64 + (p.mix_counter + 1) % 2 ^ 64 * 0x9E3779B97F4A7C15) % 2 ^ 64))).setLane
          (((p.mix_counter + 1) % 2 ^ 64 % 4 + 1) % 4)
          ((p.setLane ((p.mix_counter + 1) % 2 ^ 64 % 4)
              (p.lane ((p.mix_counter + 1) % 2 ^ 64 % 4)
                ^^^ phit_hash64 ((s % 2 ^ 64 + (p.mix_counter + 1) % 2 ^ 64 * 0x9E3779B97F4A7C15) % 2 ^ 64))).lane
            (((p.mix_counter + 1) % 2 ^ 64 % 4 + 1) % 4)
            ^^^ phit_rotl64
              (p.lane ((p.mix_counter + 1) % 2 ^ 64 % 4)
                ^^^ phit_hash64 ((s % 2 ^ 64 + (p.mix_counter + 1) % 2 ^ 64 * 0x9E3779B97F4A7C15) % 2 ^ 64)) 17)
        with mix_counter := (p.mix_counter + 1) % 2 ^ 64,
             bits_collected := p.bits_collected + 2 } := rfl

lemma phit_pool_feed_lane (p : phit_pool_t) (s j : Nat) (hj : j < 4) :
    (phit_pool_feed p s).lane j =
      if j = (p.mix_counter + 1) % 2 ^ 64 % 4 then
        p.lane j ^^^ phit_hash64 ((s % 2 ^ 64 + (p.mix_counter + 1) % 2 ^ 64 * 0x9E3779B97F4A7C15) % 2 ^ 64)
      else if j = ((p.mix_counter + 1) % 2 ^ 64 % 4 + 1) % 4 then
        p.lane j ^^^ phit_rotl64
          (p.lane ((p.mix_counter + 1) % 2 ^ 64 % 4)
            ^^^ phit_hash64 ((s % 2 ^ 64 + (p.mix_counter + 1) % 2 ^ 64 * 0x9E3779B97F4A7C15) % 2 ^ 64)) 17
      else p.lane j := by
  have hS4 : (p.mix_counter + 1) % 2 ^ 64 % 4 < 4 := by omega
  have hN4 : ((p.mix_counter + 1) % 2 ^ 64 % 4 + 1) % 4 < 4 := by omega
  have hSN : (p.mix_counter + 1) % 2 ^ 64 % 4 ≠ ((p.mix_counter + 1) % 2 ^ 64 % 4 + 1) % 4 := by
    omega
  rw [phit_pool_feed_eq p s, phit_lane_mk_update,
      phit_setLane_lane _ _ _ _ hN4 hj, phit_setLane_lane _ _ _ _ hS4 hj,
      phit_setLane_lane _ _ _ _ hS4 hN4, if_neg (Ne.symm hSN)]
  by_cases h1 : j = (p.mix_counter + 1) % 2 ^ 64 % 4
  · subst h1
    rw [if_neg hSN, if_pos rfl, if_pos rfl]
  · by_cases h2 : j = ((p.mix_counter + 1) % 2 ^ 64 % 4 + 1) % 4
    · subst h2
      rw [if_pos rfl, if_neg h1, if_pos rfl]
    · rw [if_neg h2, if_neg h1, if_neg h1, if_neg h2]

/-- C3: for every pool state and 64-bit sample, `phit_pool_feed` increments
the mix counter, computes `z = mix64(sample + mix_counter * 0x9E3779B97F4A7C15)`
in wraparound mod-2^64 arithmetic, xors `z` into the lane selected by
`mix_counter mod 4`, additionally xors the 17-bit left rotation of that
lane's new value into lane `(slot+1) mod 4` (leaving the other two lanes
unchanged), and increments `bits_collected` by exactly 2; and from the
all-zero pool the sequence `feed(1), feed(2), feed(3)` produces exactly the
reference lane values (bit-exactness regression, values computed by an
independent oracle). -/
theorem claim_C3_feed (p : phit_pool_t) (s : Nat) :
    (phit_pool_feed p s).mix_counter = (p.mix_counter + 1) % 2 ^ 64
    ∧ (phit_pool_feed p s).bits_collected = p.bits_collected + 2
    ∧ (phit_pool_feed p s).lane ((p.mix_counter + 1) % 2 ^ 64 % 4)
        = p.lane ((p.mix_counter + 1) % 2 ^ 64 % 4)
          ^^^ phit_hash64 ((s % 2 ^ 64 + (p.mix_counter + 1) % 2 ^ 64 * 0x9E3779B97F4A7C15) % 2 ^ 64)
    ∧ (phit_pool_feed p s).lane (((p.mix_counter + 1) % 2 ^ 64 % 4 + 1) % 4)
        = p.lane (((p.mix_counter + 1) % 2 ^ 64 % 4 + 1) % 4)
          ^^^ phit_rotl64 ((phit_pool_feed p s).lane ((p.mix_counter + 1) % 2 ^ 64 % 4)) 17
    ∧ (∀ i, i < 4 → i ≠ (p.mix_counter + 1) % 2 ^ 64 % 4 →
          i ≠ ((p.mix_counter + 1) % 2 ^ 64 % 4 + 1) % 4 →
          (phit_pool_feed p s).lane i = p.lane i)
    ∧ phit_pool_feed (phit_pool_feed (phit_pool_feed phit_pool_init 1) 2) 3 =
        { pool0 := 0x18B151FA2A466985, pool1 := 0x910A2DEC89025CC1,
          pool2 := 0xE4115414B27F3C56, pool3 := 0x34C28C58A8FD1523,
          mix_counter := 3, bits_collected := 6 } := by
  have hS4 : (p.mix_counter + 1) % 2 ^ 64 % 4 < 4 := by omega
  have hN4 : ((p.mix_counter + 1) % 2 ^ 64 % 4 + 1) % 4 < 4 := by omega
  have hSN : (p.mix_counter + 1) % 2 ^ 64 % 4 ≠ ((p.mix_counter + 1) % 2 ^ 64 % 4 + 1) % 4 := by
    omega
  refine ⟨rfl, rfl, ?_, ?_, ?_, by decide⟩
  · rw [phit_pool_feed_lane p s _ hS4, if_pos rfl]
  · rw [phit_pool_feed_lane p s _ hN4, if_neg (Ne.symm hSN), if_pos rfl,
        phit_pool_feed_lane p s _ hS4, if_pos rfl]
  · intro i hi h1 h2
    rw [phit_pool_feed_lane p s i hi, if_neg h1, if_neg h2]

/-- Witness for C3 at a concrete input: lane 3 is untouched by a first feed
from the zero pool (slot is 1, next lane 2), and the three-feed regression
holds. -/
theorem claim_C3_feed_witness :
    (phit_pool_feed phit_pool_init 1).lane 3 = phit_pool_init.lane 3
    ∧ phit_pool_feed (phit_pool_feed (phit_pool_feed phit_pool_init 1) 2) 3 =
        { pool0 := 0x18B151FA2A466985, pool1 := 0x910A2DEC89025CC1,
          pool2 := 0xE4115414B27F3C56, pool3 := 0x34C28C58A8FD1523,
          mix_counter := 3, bits_collected := 6 } :=
  ⟨(claim_C3_feed phit_pool_init 1).2.2.2.2.1 3 (by decide) (by decide) (by decide),
   (claim_C3_feed phit_pool_init 1).2.2.2.2.2⟩

/-- C4 (code bug): the claim says `next_range(0)` and `route(0)` fail loudly
with an explicit signaled failure and never silently return 0.  The source
instead contains `if (max == 0) return 0;` in `phit_prng_range`, so the call
silently returns 0 and leaves the generator untouched — this theorem
evaluates the code on the failing input `max = 0`.  (`phit_route(0)` is a
modulo-by-zero, undefined behaviour in C, likewise not a signaled failure;
the spec itself records both as defects of the source.) -/
theorem claim_C4_range_zero_silent (rng : phit_prng_t) (f : Nat → Nat) (base : Nat) :
    phit_prng_range rng 0 f base = (0, rng) := rfl

/-- C5: router domain validity — for every `k > 0`, `phit_route k` is the
compound sample with N = 2 reduced modulo `k`, hence lies in `[0, k)`. -/
theorem claim_C5_route_domain (k : Nat) (f : Nat → Nat) (hk : 0 < k) :
    phit_route k f = phit_sample_compound 2 f % k ∧ phit_route k f < k :=
  ⟨rfl, Nat.mod_lt _ hk⟩

/-- Witness for C5 at a concrete input: routing to 8 destinations with a
constantly-zero timer stream yields an index below 8. -/
theorem claim_C5_route_domain_witness :
    phit_route 8 phit_tzero = phit_sample_compound 2 phit_tzero % 8
    ∧ phit_route 8 phit_tzero < 8 :=
  claim_C5_route_domain 8 phit_tzero (by decide)

/-- C6 (code bug): the claim says `phit_sample_compound(0)` is rejected with
an explicit contract violation.  The source performs no check: with N = 0
the fold is empty, and the function silently returns
`phit_hash32(0) = 0` — exactly the silent degradation the contract
forbids. -/
theorem claim_C6_compound_zero_silent (f : Nat → Nat) :
    phit_sample_compound 0 f = phit_hash32 0 ∧ phit_hash32 0 = 0 :=
  ⟨rfl, rfl⟩

/-- C8: the two mixing primitives are pure, deterministic, bit-exact
functions over unsigned wraparound arithmetic.  For 32-bit input,
`phit_hash32` is multiply by 2654435761, xor-shift 16, multiply by
0x85EBCA6B, xor-shift 13 (mod 2^32, staying below 2^32); for 64-bit input,
`phit_hash64` is the SplitMix64 scheme with xor-shifts 30/27/31 and the two
fixed multipliers (mod 2^64, staying below 2^64).  Determinism is inherent:
both are pure functions of their argument. -/
theorem claim_C8_hash_primitives (x y : Nat) (hx : x < 2 ^ 32) (hy : y < 2 ^ 64) :
    phit_hash32 x =
      (let a := x * 2654435761 % 2 ^ 32
       let b := a ^^^ (a >>> 16)
       let c := b * 0x85ebca6b % 2 ^ 32
       c ^^^ (c >>> 13))
    ∧ phit_hash32 x < 2 ^ 32
    ∧ phit_hash64 y =
      (let a := (y ^^^ (y >>> 30)) * 0xBF58476D1CE4E5B9 % 2 ^ 64
       let b := (a ^^^ (a >>> 27)) * 0x94D049BB133111EB % 2 ^ 64
       b ^^^ (b >>> 31))
    ∧ phit_hash64 y < 2 ^ 64 := by
  refine ⟨?_, phit_hash32_lt x, ?_, phit_hash64_lt y⟩
  · simp only [phit_hash32]
    rw [Nat.mod_eq_of_lt hx]
  · simp only [phit_hash64]
    rw [Nat.mod_eq_of_lt hy]

/-- Witness for C8 at a concrete input: both hashes of 42 are within their
bit widths. -/
theorem claim_C8_hash_primitives_witness :
    phit_hash32 42 < 2 ^ 32 ∧ phit_hash64 42 < 2 ^ 64 :=
  ⟨(claim_C8_hash_primitives 42 42 (by decide) (by decide)).2.1,
   (claim_C8_hash_primitives 42 42 (by decide) (by decide)).2.2.2⟩

/-! ## Claim C7: claim-side and amended descriptions of the compound sample -/

/-- Formalisation of claim C7's fold, following the claim's words: each fold
varies the workload seed by xoring i times the odd constant, performs steps
2–3 of the basic sample (timer read, then 32-bit key build), xors that
step-2–3 result offset by `i` into the accumulator (with NO per-fold hash),
rotates the accumulator left by 7, and the avalanche hash is applied exactly
once, after the N folds. -/
def phit_claimC7_loop (f : Nat → Nat) : Nat → Nat → Nat → Nat
  | _, 0, key => key
  | i, n + 1, key =>
    let x := phit_sample_workload (0xDEADBEEF ^^^ (i * 0x9E3779B97F4A7C15 % 2 ^ 64))
    let t := f i % 2 ^ 64
    let sample := phit_sample_key t x
    let key := key ^^^ ((sample + i) % 2 ^ 32)
    let key := ((key <<< 7) % 2 ^ 32) ||| (key >>> 25)
    phit_claimC7_loop f (i + 1) n key

/-- The compound sample as described literally by claim C7 (hash applied
exactly once, after the folds). -/
def phit_claimC7_compound (n : Nat) (f : Nat → Nat) : Nat :=
  phit_hash32 (phit_claimC7_loop f 0 n 0)

/-- Claim C7 as amended: identical fold, except that the 32-bit avalanche
hash is applied to each fold's offset step-2–3 result before it is xored
into the accumulator (so the hash runs once per fold, plus once more on the
accumulator at the end). -/
def phit_amendedC7_loop (f : Nat → Nat) : Nat → Nat → Nat → Nat
  | _, 0, key => key
  | i, n + 1, key =>
    let x := phit_sample_workload (0xDEADBEEF ^^^ (i * 0x9E3779B97F4A7C15 % 2 ^ 64))
    let t := f i % 2 ^ 64
    let sample := phit_sample_key t x
    let key := key ^^^ phit_hash32 ((sample + i) % 2 ^ 32)
    let key := ((key <<< 7) % 2 ^ 32) ||| (key >>> 25)
    phit_amendedC7_loop f (i + 1) n key

/-- The amended compound-sample description of claim C7. -/
def phit_amendedC7_compound (n : Nat) (f : Nat → Nat) : Nat :=
  phit_hash32 (phit_amendedC7_loop f 0 n 0)

lemma phit_amendedC7_loop_eq (f : Nat → Nat) :
    ∀ n i key, phit_amendedC7_loop f i n key = phit_compound_loop f i n key := by
  intro n
  induction n with
  | zero => intro i key; rfl
  | succ n ih =>
    intro i key
    simp only [phit_amendedC7_loop, phit_compound_loop]
    exact ih _ _

/-- Counterexample to C7 as stated: with a single fold and the constantly
zero timer stream, the source's `phit_sample_compound` disagrees with the
claim's description (the source hashes each fold's offset result with the
avalanche hash before xoring; the claim applies the hash only once, after
the folds). -/
theorem claim_C7_counterexample :
    phit_sample_compound 1 phit_tzero ≠ phit_claimC7_compound 1 phit_tzero := by
  decide

/-- C7 as amended: for every `N` and every timer stream, the source's
compound sample equals the amended fold, in which the avalanche hash is
applied to each fold's offset step-2–3 result before the xor accumulation,
the accumulator is rotated left 7 after each fold, and the avalanche hash is
applied once more to the accumulator at the end. -/
theorem claim_C7_amended (n : Nat) (f : Nat → Nat) :
    phit_sample_compound n f = phit_amendedC7_compound n f := by
  unfold phit_sample_compound phit_amendedC7_compound
  rw [phit_amendedC7_loop_eq]

/-! ## Claim C10: byte-fill machinery -/

/-- The PRNG state after `k` successive `phit_prng_u64` calls, the timer
stream advancing four reads per call. -/
def phit_u64StateN (rng : phit_prng_t) (f : Nat → Nat) (base : Nat) : Nat → phit_prng_t
  | 0 => rng
  | k + 1 => phit_u64StateN (phit_prng_u64 rng f base).2 f (base + 4) k

/-- The value produced by the `j`-th successive `phit_prng_u64` call
(0-based). -/
def phit_u64Out (rng : phit_prng_t) (f : Nat → Nat) (base : Nat) (j : Nat) : Nat :=
  (phit_prng_u64 (phit_u64StateN rng f base j) f (base + 4 * j)).1

lemma phit_u64StateN_succ (rng : phit_prng_t) (f : Nat → Nat) (base k : Nat) :
    phit_u64StateN rng f base (k + 1) =
      phit_u64StateN (phit_prng_u64 rng f base).2 f (base + 4) k := rfl

lemma phit_u64Out_zero (rng : phit_prng_t) (f : Nat → Nat) (base : Nat) :
    phit_u64Out rng f base 0 = (phit_prng_u64 rng f base).1 := rfl

lemma phit_u64Out_succ (rng : phit_prng_t) (f : Nat → Nat) (base j : Nat) :
    phit_u64Out rng f base (j + 1) =
      phit_u64Out (phit_prng_u64 rng f base).2 f (base + 4) j := by
  unfold phit_u64Out
  rw [phit_u64StateN_succ, show base + 4 * (j + 1) = base + 4 + 4 * j from by ring]

lemma phit_prng_u64_generated (rng : phit_prng_t) (f : Nat → Nat) (base : Nat) :
    (phit_prng_u64 rng f base).2.generated = (rng.generated + 1) % 2 ^ 64 := rfl

lemma phit_u64StateN_generated (f : Nat → Nat) : ∀ (k : Nat) (rng : phit_prng_t) (base : Nat),
    rng.generated < 2 ^ 64 →
    (phit_u64StateN rng f base k).generated = (rng.generated + k) % 2 ^ 64 := by
  intro k
  induction k with
  | zero =>
    intro rng base hg
    simp only [phit_u64StateN]
    omega
  | succ k ih =>
    intro rng base hg
    rw [phit_u64StateN_succ, ih _ _ (Nat.mod_lt _ (by norm_num)) ,
        phit_prng_u64_generated]
    omega

lemma phit_writeBytes_length : ∀ (k : Nat) (buf : List Nat) (off v : Nat),
    (phit_writeBytes buf off v k).length = buf.length := by
  intro k
  induction k with
  | zero => intro buf off v; rfl
  | succ k ih =>
    intro buf off v
    simp only [phit_writeBytes]
    rw [ih, List.length_set]

lemma phit_writeBytes_getD_outside : ∀ (k : Nat) (buf : List Nat) (off v j : Nat),
    (j < off ∨ off + k ≤ j) →
    (phit_writeBytes buf off v k).getD j 0 = buf.getD j 0 := by
  intro k
  induction k with
  | zero => intro buf off v j _; rfl
  | succ k ih =>
    intro buf off v j h
    simp only [phit_writeBytes]
    rw [ih _ _ _ _ (by omega)]
    rw [List.getD_eq_getElem?_getD, List.getD_eq_getElem?_getD,
        List.getElem?_set_ne (by omega)]

lemma phit_writeBytes_getD_inside : ∀ (k : Nat) (buf : List Nat) (off v i : Nat),
    i < k → off + k ≤ buf.length →
    (phit_writeBytes buf off v k).getD (off + i) 0 = v / 256 ^ i % 256 := by
  intro k
  induction k with
  | zero => intro buf off v i hi _; exact absurd hi (by omega)
  | succ k ih =>
    intro buf off v i hi hlen
    simp only [phit_writeBytes]
    cases i with
    | zero =>
      rw [phit_writeBytes_getD_outside k _ _ _ _ (by omega), Nat.add_zero]
      rw [List.getD_eq_getElem?_getD, List.getElem?_set_self (by omega)]
      simp
    | succ i =>
      rw [show off + (i + 1) = off + 1 + i from by omega]
      rw [ih _ _ _ _ (by omega) (by rw [List.length_set]; omega)]
      rw [Nat.div_div_eq_div_mul, Nat.mul_comm, ← pow_succ]

lemma phit_prng_fill_spec (f : Nat → Nat) : ∀ (len : Nat) (rng : phit_prng_t) (base : Nat)
    (buf : List Nat) (off : Nat), off + len ≤ buf.length →
    (phit_prng_fill rng f base buf off len).1.length = buf.length
    ∧ (∀ j, j < off ∨ off + len ≤ j →
        (phit_prng_fill rng f base buf off len).1.getD j 0 = buf.getD j 0)
    ∧ (∀ i, i < len →
        (phit_prng_fill rng f base buf off len).1.getD (off + i) 0
          = phit_u64Out rng f base (i / 8) / 256 ^ (i % 8) % 256)
    ∧ (phit_prng_fill rng f base buf off len).2 = phit_u64StateN rng f base ((len + 7) / 8) := by
  intro len
  induction len using Nat.strong_induction_on with
  | _ len ih =>
    intro rng base buf off hlen
    by_cases h8 : 8 ≤ len
    · rw [phit_prng_fill]
      simp only [dif_pos h8]
      have hlen2 : off + 8 + (len - 8) ≤ (phit_writeBytes buf off (phit_prng_u64 rng f base).1 8).length := by
        rw [phit_writeBytes_length]
        omega
      obtain ⟨ih1, ih2, ih3, ih4⟩ := ih (len - 8) (by omega) (phit_prng_u64 rng f base).2
        (base + 4) (phit_writeBytes buf off (phit_prng_u64 rng f base).1 8) (off + 8) hlen2
      refine ⟨?_, ?_, ?_, ?_⟩
      · rw [ih1, phit_writeBytes_length]
      · intro j hj
        rw [ih2 j (by omega), phit_writeBytes_getD_outside 8 _ _ _ _ (by omega)]
      · intro i hi
        by_cases hi8 : i < 8
        · rw [ih2 (off + i) (by omega),
              phit_writeBytes_getD_inside 8 _ _ _ _ (by omega) (by omega),
              show i / 8 = 0 from by omega, show i % 8 = i from by omega,
              phit_u64Out_zero]
        · rw [show off + i = off + 8 + (i - 8) from by omega,
              ih3 (i - 8) (by omega),
              show i / 8 = (i - 8) / 8 + 1 from by omega,
              show i % 8 = (i - 8) % 8 from by omega,
              phit_u64Out_succ]
      · rw [ih4, show (len + 7) / 8 = (len - 8 + 7) / 8 + 1 from by omega,
            phit_u64StateN_succ]
    · rw [phit_prng_fill]
      rw [dif_neg h8]
      by_cases hpos : 0 < len
      · rw [if_pos hpos]
        refine ⟨phit_writeBytes_length len buf off _, ?_, ?_, ?_⟩
        · intro j hj
          exact phit_writeBytes_getD_outside len _ _ _ _ (by omega)
        · intro i hi
          rw [phit_writeBytes_getD_inside len _ _ _ _ hi hlen,
              show i / 8 = 0 from by omega, show i % 8 = i from by omega,
              phit_u64Out_zero]
        · rw [show (len + 7) / 8 = 1 from by omega]
          rfl
      · rw [if_neg hpos]
        refine ⟨rfl, fun j _ => rfl, fun i hi => absurd hi (by omega), ?_⟩
        rw [show (len + 7) / 8 = 0 from by omega]
        rfl

/-- C10: for every length `n ≥ 0`, `phit_prng_fill` writes exactly `n` bytes
into the buffer — byte `i` (for `i < n`) is byte `i mod 8` (little-endian) of
the `(i div 8)`-th `phit_prng_u64` output, which covers both the full 8-byte
chunks and the final partial chunk truncating one last generated value —
consumes exactly `ceil(n/8)` generator outputs (the final generator state is
the state after that many `phit_prng_u64` calls, and the generated counter
advances by exactly that much), and leaves every byte at offset `n` and
beyond unchanged. -/
theorem claim_C10_fill (rng : phit_prng_t) (f : Nat → Nat) (base : Nat) (buf : List Nat)
    (n : Nat) (hn : n ≤ buf.length) (hg : rng.generated < 2 ^ 64) :
    (phit_prng_fill rng f base buf 0 n).1.length = buf.length
    ∧ (∀ j, n ≤ j → (phit_prng_fill rng f base buf 0 n).1.getD j 0 = buf.getD j 0)
    ∧ (∀ i, i < n → (phit_prng_fill rng f base buf 0 n).1.getD i 0
        = phit_u64Out rng f base (i / 8) / 256 ^ (i % 8) % 256)
    ∧ (phit_prng_fill rng f base buf 0 n).2 = phit_u64StateN rng f base ((n + 7) / 8)
    ∧ (phit_prng_fill rng f base buf 0 n).2.generated
        = (rng.generated + (n + 7) / 8) % 2 ^ 64 := by
  obtain ⟨h1, h2, h3, h4⟩ := phit_prng_fill_spec f n rng base buf 0 (by omega)
  refine ⟨h1, fun j hj => h2 j (Or.inr (by omega)),
          fun i hi => by simpa using h3 i hi, h4, ?_⟩
  rw [h4, phit_u64StateN_generated f ((n + 7) / 8) rng base hg]

/-- Witness for C10 at a concrete input: filling 3 bytes of a 4-byte buffer
keeps the length, leaves byte 3 untouched, and consumes exactly one
generated value. -/
theorem claim_C10_fill_witness :
    (phit_prng_fill { pool := phit_pool_init, generated := 0 } phit_tzero 0
        [9, 9, 9, 9] 0 3).1.length = 4
    ∧ (phit_prng_fill { pool := phit_pool_init, generated := 0 } phit_tzero 0
        [9, 9, 9, 9] 0 3).1.getD 3 0 = 9
    ∧ (phit_prng_fill { pool := phit_pool_init, generated := 0 } phit_tzero 0
        [9, 9, 9, 9] 0 3).2.generated = 1 := by
  have h := claim_C10_fill { pool := phit_pool_init, generated := 0 } phit_tzero 0
    [9, 9, 9, 9] 3 (by norm_num) (by norm_num)
  refine ⟨h.1, ?_, ?_⟩
  · have := h.2.1 3 (by norm_num)
    simpa using this
  · have := h.2.2.2.2
    norm_num at this
    exact this
